import Mathlib

/-!
Shallow embedding of the pulse-sequence compiler of the time-resolved-ODMR
repository, together with theorems settling the specification claims.

Numeric conventions of the embedding: Python floats are modelled as exact
rationals, Python ints as integers, numpy arrays as lists.  Python's
built-in `round` (round half to even) is modelled by `pyRound`; numpy's
`astype` float-to-integer conversion truncates toward zero, modelled by
`truncQ`, and its conversion to a 16-bit signed integer wraps modulo
`2 ^ 16`, modelled by `wrap16`.
-/

/-- Python `round`: nearest integer, ties to even (`Devices` use it on
durations and loop counts). -/
def pyRound (q : ℚ) : ℤ :=
  let f := ⌊q⌋
  let r := q - f
  if r < 1/2 then f
  else if 1/2 < r then f + 1
  else if f % 2 = 0 then f else f + 1

/-! ### PicoPulse.encodeSequence (src/Devices/PicoPulse.py, lines 10-53) -/

/-- One row of the sequence dataframe handed to `PicoPulse.encodeSequence`:
the `time` column is accessed unconditionally (`seq.time[i]`), every other
column is consulted only if present, modelled as a partial map from column
name to value. -/
structure Step where
  time : ℚ
  cols : String → Option ℚ

/-- The test `c in seq and seq.c[i] > 0` of `encodeSequence`: the column is
present and its value in this row is positive. -/
def chOn (r : Step) (c : String) : Bool :=
  match r.cols c with
  | some v => decide (0 < v)
  | none => false

/-- The bitmask accumulation of `encodeSequence` (lines 38-48): `out`
starts at 0 and the five fixed columns `ch1` .. `ch5` add `1, 2, 4, 8, 16`
respectively when present and positive. -/
def bitmask (r : Step) : ℕ :=
  let out := 0
  let out := if chOn r "ch1" then out + 1 else out
  let out := if chOn r "ch2" then out + 2 else out
  let out := if chOn r "ch3" then out + 4 else out
  let out := if chOn r "ch4" then out + 8 else out
  let out := if chOn r "ch5" then out + 16 else out
  out

/-- The fixed column names the encoder consults for the bitmask. -/
def chNames : List String := ["ch1", "ch2", "ch3", "ch4", "ch5"]

/-- `t = round(seq.time[i]); t = t if t > 0 else 0` (lines 35-36). -/
def tokenTime (r : Step) : ℤ :=
  let t := pyRound r.time
  if t > 0 then t else 0

/-- One `f"{t},{out},"` token (line 51). -/
def encodeToken (r : Step) : String :=
  toString (tokenTime r) ++ "," ++ toString (bitmask r) ++ ","

/-- The token-emitting loop of `encodeSequence` (lines 34-51), which appends
one token per row in order. -/
def encodeBody : List Step → String
  | [] => ""
  | r :: rs => encodeToken r ++ encodeBody rs

/-- The literal `1 << 32 - 1` of line 25/28; Python precedence parses it as
`1 << (32 - 1)`. -/
def sentinel : ℕ := 1 <<< (32 - 1)

/-- Outer-loop count selection (lines 25-28): a requested value is used
(rounded) only when it is given, non-negative and at most `1 << 32 - 1`;
otherwise the sentinel `1 << 32 - 1` is used. -/
def outerCount : Option ℚ → ℤ
  | some x => if 0 ≤ x ∧ x ≤ (sentinel : ℚ) then pyRound x else (sentinel : ℤ)
  | none => (sentinel : ℤ)

/-- `PicoPulse.encodeSequence` (lines 10-53): command word, clamped inner
loop, outer loop, then the token body. -/
def encodeSequence (seq : List Step) (cycle : Bool) (innerLoop : ℚ)
    (outerLoop : Option ℚ) : String :=
  let cmd := if cycle then "CPULSE" else "PULSE"
  let m := pyRound innerLoop
  let m := if m < 0 then 0 else m
  let cmd := cmd ++ " " ++ toString m
  let n := outerCount outerLoop
  let cmd := cmd ++ " " ++ toString n ++ " "
  cmd ++ encodeBody seq

/-- `n` copies of a string concatenated, used to state what the token loop
produces on a replicated sequence. -/
def stringRepeat : ℕ → String → String
  | 0, _ => ""
  | n + 1, s => s ++ stringRepeat n s

/-! ### SDG1062X waveform upload (src/Devices/AWG.py) -/

/-- numpy `astype` to a machine integer: truncation toward zero. -/
def truncQ (q : ℚ) : ℤ :=
  if 0 ≤ q then ⌊q⌋ else ⌈q⌉

/-- numpy `astype('int16')`: the value is reduced modulo `2 ^ 16` into
`[-32768, 32767]`. -/
def wrap16 (z : ℤ) : ℤ :=
  (z + 32768) % 65536 - 32768

/-- `np.max(np.abs(waveform))` over a list (0 for the empty list). -/
def maxAbs (w : List ℚ) : ℚ :=
  (w.map (fun x => |x|)).foldr max 0

/-- `SDG1062X.set_waveform` (lines 135-157), the part that transforms the
sample buffer: normalize by the peak unless it is zero, pad to a
power-of-two-minus-2 length if `len + 2` is not already a power of two
(target at least `0x8000`), then scale by `0x7FFF` and truncate to int. -/
def set_waveform (waveform : List ℚ) : List ℤ :=
  let factor := maxAbs waveform
  let w1 := if factor ≠ 0 then waveform.map (fun x => x / factor) else waveform
  let n := w1.length + 2
  let w2 :=
    if n &&& (n - 1) ≠ 0 then
      let tgt := max (2 ^ Nat.clog 2 n) 0x8000
      let rem := tgt - n
      w1 ++ List.replicate rem 0
    else w1
  w2.map (fun x => truncQ (0x7FFF * x))

/-- `SDG1062X.set_waveform_exact` (line 223): no normalization and no
padding, the input is scaled by `0x7FFF` and cast to numpy `int16`,
which wraps. -/
def set_waveform_exact (waveform : List ℚ) : List ℤ :=
  waveform.map (fun x => wrap16 (truncQ (0x7FFF * x)))

/-! ### seq_to_waveforms (src/Devices/AWG.py, lines 461-487) -/

/-- One row of the sequence dataframe consumed by `seq_to_waveforms`. -/
structure WRow where
  length : ℚ
  L : ℚ
  I : ℚ
  Q : ℚ

/-- Fixed buffer size `p = 0x7FFE` of `seq_to_waveforms` (line 465). -/
def pBuf : ℕ := 0x7FFE

/-- Write `count` copies of `v` into `arr` starting at index `i` (the body
of the inner `for j in range(count)` loop, per channel). -/
def writeRun (arr : List ℚ) (i : ℕ) (v : ℚ) : ℕ → List ℚ
  | 0 => arr
  | c + 1 => writeRun (arr.set i v) (i + 1) v c

/-- The row loop of `seq_to_waveforms` (lines 473-484): each row writes
`count = 2 * round(length)` samples into the four channel buffers at the
running index, then advances the index by `count`.  A count that rounds
to zero (or negative) writes nothing. -/
def fillRows : List WRow → List ℚ × List ℚ × List ℚ × List ℚ → ℕ →
    List ℚ × List ℚ × List ℚ × List ℚ
  | [], st, _ => st
  | r :: rs, (lp, ln, ic, qc), i =>
    let count := (2 * pyRound r.length).toNat
    fillRows rs
      (writeRun lp i r.L count, writeRun ln i (-r.L) count,
       writeRun ic i r.I count, writeRun qc i r.Q count)
      (i + count)

/-- `seq_to_waveforms` (lines 461-487): four zero-filled buffers of length
`p`, filled row by row. -/
def seq_to_waveforms (seq : List WRow) : List ℚ × List ℚ × List ℚ × List ℚ :=
  fillRows seq
    (List.replicate pBuf 0, List.replicate pBuf 0,
     List.replicate pBuf 0, List.replicate pBuf 0) 0

/-! ### Timing resolver (src/Devices/AWG.py, lines 489-561, the
frequency-driven `seq_to_waveforms` variant kept in the source as a
comment block; the timing computations are lines 502-521) -/

/-- `tmin = np.maximum((p/2)/30e6, 0.98*1/lock_in_hz)` (lines 502-505). -/
def resolverTmin (f : ℚ) : ℚ :=
  max (((pBuf : ℚ) / 2) / 30e6) (0.98 * 1 / f)

/-- `t = np.maximum(boundaries[-1], tmin)` (line 514): the total requested
duration rounded up to `tmin`. -/
def resolverT (total f : ℚ) : ℚ :=
  max total (resolverTmin f)

/-- `samplerate = (p/2)/t` (line 518). -/
def resolverRate (total f : ℚ) : ℚ :=
  ((pBuf : ℚ) / 2) / resolverT total f

/-- `timeres = t / (p/2)` (line 521). -/
def resolverRes (total f : ℚ) : ℚ :=
  resolverT total f / ((pBuf : ℚ) / 2)

/-! ### Experiment-level sequence builders -/

/-- One row of the T1 / Rabi sequence dataframes: a duration in
nanoseconds and the lockin / laser / I / Q channel levels. -/
structure XRow where
  time : ℤ
  lockin : ℕ
  laser : ℕ
  I : ℕ
  Q : ℕ

/-- `T1.T1seq` (src/Experiments/T1.py, lines 109-128): half period from the
lock-in frequency, explicit padding row `tpad = halft - init - readout - tau`,
error when `tpad < 20`, else the eight-row sequence. -/
def T1seq (tau init readout : ℤ) (freq : ℚ) : Except String (List XRow) :=
  let halft := pyRound (1e9 / (freq * 2))
  let tpad := halft - init - readout - tau
  if tpad < 20 then
    Except.error "Cannot generate T1 sequence, padding is too short."
  else
    Except.ok
      [⟨init, 1, 1, 0, 0⟩, ⟨tau, 1, 0, 0, 0⟩, ⟨readout, 1, 1, 0, 0⟩,
       ⟨tpad, 1, 0, 0, 0⟩, ⟨init, 0, 1, 0, 0⟩, ⟨tau, 0, 0, 0, 0⟩,
       ⟨readout, 0, 0, 0, 0⟩, ⟨tpad, 0, 0, 0, 0⟩]

/-- `Rabi.rabiSeq` (src/Experiments/Rabi.py, lines 119-152): parameter
checks (duty cycle, loop count, the `loops * 6 >= (1 << 16)` memory guard,
minimum padding), then `loops` microwave cycles followed by `loops`
reference cycles of three rows each. -/
def rabiSeq (tau : ℤ) (inner_halft : ℚ) (laser_duty_cycle : ℚ) (loops : ℤ) :
    Except String (List XRow) :=
  if laser_duty_cycle ≤ 0 ∨ 1 ≤ laser_duty_cycle then
    Except.error "Laser duty cycle must be between 0 and 1 (exclusive)."
  else if loops ≤ 0 then
    Except.error "There must be at least one loop."
  else if loops * 6 ≥ 1 <<< 16 then
    Except.error "The generated sequence will not fit in the memory of the pico-pulse device."
  else
    let laser_on := pyRound (inner_halft * laser_duty_cycle)
    let laser_off := pyRound (inner_halft - (laser_on : ℚ))
    let tpad := laser_off - tau
    if tpad < 20 then
      Except.error "Cannot generate Rabi sequence, padding is too short."
    else
      Except.ok
        ((List.replicate loops.toNat
            [⟨tpad, 1, 0, 0, 0⟩, ⟨tau, 1, 0, 1, 1⟩, ⟨laser_on, 1, 1, 0, 0⟩]).flatten ++
         (List.replicate loops.toNat
            [⟨tpad, 0, 0, 0, 0⟩, ⟨tau, 0, 0, 0, 0⟩, ⟨laser_on, 0, 1, 0, 0⟩]).flatten)

/-! ### Helper lemmas -/

theorem pyRound_intCast (z : ℤ) : pyRound (z : ℚ) = z := by
  simp [pyRound]

theorem pyRound_ofNat (n : ℕ) [n.AtLeastTwo] :
    pyRound (OfNat.ofNat n : ℚ) = OfNat.ofNat n := by
  have h := pyRound_intCast (OfNat.ofNat n)
  push_cast at h
  exact h

theorem pyRound_zero : pyRound (0 : ℚ) = 0 := by
  have h := pyRound_intCast 0
  simpa using h

/-- A positive number whose bitwise AND with its predecessor vanishes is a
power of two. -/
theorem eq_pow_of_land_pred_eq_zero {n : ℕ} (hn : 1 ≤ n)
    (h : n &&& (n - 1) = 0) : n = 2 ^ Nat.log 2 n := by
  by_contra hne
  have h1 : 2 ^ Nat.log 2 n ≤ n := Nat.pow_log_le_self 2 (by omega)
  have h2 : n < 2 ^ (Nat.log 2 n + 1) := Nat.lt_pow_succ_log_self (by norm_num) n
  set k := Nat.log 2 n with hk
  have hpow : 2 ^ (k + 1) = 2 * 2 ^ k := by ring
  have hgt : 2 ^ k < n := lt_of_le_of_ne h1 fun e => hne e.symm
  have hdiv1 : n / 2 ^ k = 1 := Nat.div_eq_of_lt_le (by omega) (by omega)
  have hdiv2 : (n - 1) / 2 ^ k = 1 := Nat.div_eq_of_lt_le (by omega) (by omega)
  have ht1 : n.testBit k = true := by
    rw [Nat.testBit_to_div_mod, hdiv1]
    rfl
  have ht2 : (n - 1).testBit k = true := by
    rw [Nat.testBit_to_div_mod, hdiv2]
    rfl
  have hb := congrArg (fun m => Nat.testBit m k) h
  simp only [Nat.testBit_land, ht1, ht2, Nat.zero_testBit, Bool.and_self] at hb
  exact Bool.noConfusion hb

theorem maxAbs_nonneg (w : List ℚ) : 0 ≤ maxAbs w := by
  induction w with
  | nil => simp [maxAbs]
  | cons a l ih =>
    have : maxAbs (a :: l) = max |a| (maxAbs l) := rfl
    rw [this]
    exact le_trans ih (le_max_right _ _)

theorem abs_le_maxAbs {w : List ℚ} {x : ℚ} (hx : x ∈ w) : |x| ≤ maxAbs w := by
  induction w with
  | nil => cases hx
  | cons a l ih =>
    have hcons : maxAbs (a :: l) = max |a| (maxAbs l) := rfl
    rw [hcons]
    rcases List.mem_cons.1 hx with h | h
    · subst h; exact le_max_left _ _
    · exact le_trans (ih h) (le_max_right _ _)

/-- Truncation toward zero maps `[-b, b]` into `[-b, b]` for an integer
bound `b`. -/
theorem truncQ_bound {q : ℚ} {b : ℤ} (hb : 0 ≤ b) (h : |q| ≤ (b : ℚ)) :
    -b ≤ truncQ q ∧ truncQ q ≤ b := by
  rcases abs_le.1 h with ⟨hlo, hhi⟩
  unfold truncQ
  split
  · constructor
    · exact le_trans (by omega) (Int.floor_nonneg.2 (by assumption))
    · calc ⌊q⌋ ≤ ⌊(b : ℚ)⌋ := Int.floor_le_floor hhi
        _ = b := Int.floor_intCast b
  · constructor
    · calc -b = ⌈((-b : ℤ) : ℚ)⌉ := by rw [Int.ceil_intCast]
        _ ≤ ⌈q⌉ := Int.ceil_le_ceil (by push_cast; exact hlo)
    · have hq : q ≤ 0 := le_of_not_le (by assumption)
      have h0 : ⌈q⌉ ≤ 0 := by simpa using Int.ceil_le_ceil hq
      omega

theorem clog2_three : Nat.clog 2 3 = 2 := by
  have h1 : Nat.clog 2 3 ≤ 2 :=
    (Nat.le_pow_iff_clog_le (by norm_num)).1 (by norm_num)
  have h2 : 1 < Nat.clog 2 3 :=
    (Nat.pow_lt_iff_lt_clog (by norm_num)).1 (by norm_num)
  omega

theorem clog2_twelve : Nat.clog 2 12 = 4 := by
  have h1 : Nat.clog 2 12 ≤ 4 :=
    (Nat.le_pow_iff_clog_le (by norm_num)).1 (by norm_num)
  have h2 : 3 < Nat.clog 2 12 :=
    (Nat.pow_lt_iff_lt_clog (by norm_num)).1 (by norm_num)
  omega

theorem foldr_max_replicate_zero (n : ℕ) :
    ((List.replicate n (0 : ℚ)).foldr max 0) = 0 := by
  induction n with
  | zero => rfl
  | succ m ih => simp [List.replicate_succ, ih]

theorem maxAbs_replicate_zero (n : ℕ) : maxAbs (List.replicate n (0 : ℚ)) = 0 := by
  unfold maxAbs
  rw [List.map_replicate]
  simpa using foldr_max_replicate_zero n

theorem encodeBody_replicate (n : ℕ) (r : Step) :
    encodeBody (List.replicate n r) = stringRepeat n (encodeToken r) := by
  induction n with
  | zero => rfl
  | succ m ih => simp [List.replicate_succ, encodeBody, stringRepeat, ih]

/-! ### Claims C2, C6, C10, C3: the token encoder -/

/-- C6 counterexample: the outer-loop sentinel emitted when the caller
requests no finite repeat is `1 << 32 - 1 = 2 ^ 31 = 2147483648` (Python
precedence), not `2 ^ 32 - 1 = 4294967295` as the claim states. -/
theorem C6_counterexample :
    outerCount none = 2147483648 ∧ (2147483648 : ℤ) ≠ 2 ^ 32 - 1 := by
  constructor
  · show (sentinel : ℤ) = 2147483648
    decide
  · decide

/-- C6 (amended): when `outerLoop` is `None`, negative, or above
`1 << 32 - 1 = 2 ^ 31`, the encoder uses the sentinel `2 ^ 31`; a request
inside `[0, 2 ^ 31]` is rounded and used as given (no clamping occurs). -/
theorem C6_outer_loop_sentinel :
    outerCount none = ((1 <<< (32 - 1) : ℕ) : ℤ) ∧
    (∀ x : ℚ, x < 0 → outerCount (some x) = ((1 <<< (32 - 1) : ℕ) : ℤ)) ∧
    (∀ x : ℚ, ((1 <<< (32 - 1) : ℕ) : ℚ) < x →
      outerCount (some x) = ((1 <<< (32 - 1) : ℕ) : ℤ)) ∧
    (∀ x : ℚ, 0 ≤ x → x ≤ ((1 <<< (32 - 1) : ℕ) : ℚ) →
      outerCount (some x) = pyRound x) := by
  refine ⟨rfl, ?_, ?_, ?_⟩
  · intro x hx
    rw [outerCount, if_neg]
    · rfl
    · rintro ⟨h0, -⟩
      exact absurd (lt_of_lt_of_le hx h0) (lt_irrefl x)
  · intro x hx
    rw [outerCount, if_neg]
    · rfl
    · rintro ⟨-, hle⟩
      exact absurd (lt_of_lt_of_le hx hle) (lt_irrefl _)
  · intro x h0 hle
    rw [outerCount, if_pos ⟨h0, hle⟩]

/-- C6 witness: a negative request falls back to the sentinel. -/
theorem C6_witness : outerCount (some (-1)) = ((1 <<< (32 - 1) : ℕ) : ℤ) :=
  C6_outer_loop_sentinel.2.1 (-1) (by norm_num)

/-- C2 counterexample: `encodeSequence` has no channel map; a sequence
carrying its laser values in a column named `laser` produces bitmask `0` in
every step, so the claimed token body `"1000,1,1000,0,"` is not emitted. -/
theorem C2_counterexample :
    encodeBody
      [⟨1000, fun c => if c = "laser" then some 1 else none⟩,
       ⟨1000, fun c => if c = "laser" then some 0 else none⟩] =
      "1000,0,1000,0," ∧
    ("1000,0,1000,0," : String) ≠ "1000,1,1000,0," := by
  have hr : pyRound (1000 : ℚ) = 1000 := by
    have h := pyRound_intCast 1000
    push_cast at h
    exact h
  constructor
  · simp only [encodeBody, encodeToken, tokenTime, bitmask, chOn, hr]
    decide
  · decide

/-- C2 (amended): the channel-to-bit map is fixed, `ch1` .. `ch5` to bits
0 .. 4.  A 2-step sequence `[(1000, ch1=1), (1000, ch1=0)]` yields the
token body `"1000,1,1000,0,"`; for every step the bitmask is the sum of
`1 << bit` over exactly those fixed channels present with a positive
value, so all-active steps give 31 and all-inactive steps give 0. -/
theorem C2_fixed_channel_bitmask :
    encodeBody
      [⟨1000, fun c => if c = "ch1" then some 1 else none⟩,
       ⟨1000, fun c => if c = "ch1" then some 0 else none⟩] =
      "1000,1,1000,0," ∧
    (∀ r : Step, bitmask r =
      ∑ i ∈ Finset.range 5, if chOn r (chNames.getD i "") then 1 <<< i else 0) ∧
    (∀ r : Step, (∀ c ∈ chNames, chOn r c = true) → bitmask r = 31) ∧
    (∀ r : Step, (∀ c ∈ chNames, chOn r c = false) → bitmask r = 0) := by
  refine ⟨?_, ?_, ?_, ?_⟩
  · have hr : pyRound (1000 : ℚ) = 1000 := by
      have h := pyRound_intCast 1000
      push_cast at h
      exact h
    simp only [encodeBody, encodeToken, tokenTime, bitmask, chOn, hr]
    decide
  · intro r
    simp only [Finset.sum_range_succ, Finset.sum_range_zero, chNames,
      List.getD_cons_zero, List.getD_cons_succ, bitmask]
    split_ifs <;> decide
  · intro r h
    have h1 := h "ch1" (by simp [chNames])
    have h2 := h "ch2" (by simp [chNames])
    have h3 := h "ch3" (by simp [chNames])
    have h4 := h "ch4" (by simp [chNames])
    have h5 := h "ch5" (by simp [chNames])
    simp [bitmask, h1, h2, h3, h4, h5]
  · intro r h
    have h1 := h "ch1" (by simp [chNames])
    have h2 := h "ch2" (by simp [chNames])
    have h3 := h "ch3" (by simp [chNames])
    have h4 := h "ch4" (by simp [chNames])
    have h5 := h "ch5" (by simp [chNames])
    simp [bitmask, h1, h2, h3, h4, h5]

/-- C2 witness: a step with no channel column at all gets bitmask 0. -/
theorem C2_witness : bitmask ⟨1000, fun _ => none⟩ = 0 :=
  C2_fixed_channel_bitmask.2.2.2 ⟨1000, fun _ => none⟩
    (fun c _ => by simp [chOn])

/-- C10: every bitmask emitted by the token encoder lies in `[0, 31]`
(only `ch1` .. `ch5` contribute, at bits 0 .. 4), and two rows agreeing on
the `time` column and on the five fixed channel columns produce the same
token, whatever other columns they carry. -/
theorem C10_bitmask_invariant :
    (∀ r : Step, bitmask r ≤ 31) ∧
    (∀ r r' : Step, r.time = r'.time →
      (∀ c ∈ chNames, r.cols c = r'.cols c) →
      encodeToken r = encodeToken r') := by
  constructor
  · intro r
    simp only [bitmask]
    split_ifs <;> decide
  · intro r r' ht hc
    have h1 := hc "ch1" (by simp [chNames])
    have h2 := hc "ch2" (by simp [chNames])
    have h3 := hc "ch3" (by simp [chNames])
    have h4 := hc "ch4" (by simp [chNames])
    have h5 := hc "ch5" (by simp [chNames])
    simp only [encodeToken, tokenTime, bitmask, chOn, ht, h1, h2, h3, h4, h5]

/-- C10 witness: an extra `junk` column does not change the token. -/
theorem C10_witness :
    encodeToken ⟨5, fun _ => some 1⟩ =
      encodeToken ⟨5, fun c => if c = "junk" then some 0 else some 1⟩ :=
  C10_bitmask_invariant.2 _ _ rfl (fun c hc => by
    simp only [chNames, List.mem_cons, List.not_mem_nil, or_false] at hc
    rcases hc with h | h | h | h | h <;> subst h <;> rfl)

/-- C3 counterexample: `encodeSequence` performs no capacity check.  A
sequence of 65537 steps — more than the `2 ^ 16` token ceiling — is encoded
in full, with all 65537 tokens emitted and no error of any kind. -/
theorem C3_counterexample :
    2 ^ 16 < 65537 ∧
    encodeSequence (List.replicate 65537 ⟨0, fun _ => none⟩) false 0 none =
      "PULSE 0 2147483648 " ++ stringRepeat 65537 "0,0," := by
  refine ⟨by norm_num, ?_⟩
  have htok : encodeToken ⟨0, fun _ => none⟩ = "0,0," := by
    simp only [encodeToken, tokenTime, bitmask, chOn, pyRound_zero]
    decide
  show (if (false : Bool) then "CPULSE" else "PULSE") ++ " " ++
      toString (if pyRound 0 < 0 then 0 else pyRound 0) ++ " " ++
      toString (outerCount none) ++ " " ++
      encodeBody (List.replicate 65537 ⟨0, fun _ => none⟩) =
    "PULSE 0 2147483648 " ++ stringRepeat 65537 "0,0,"
  rw [encodeBody_replicate, htok, pyRound_zero]
  have hpre : (if (false : Bool) then "CPULSE" else "PULSE") ++ " " ++
      toString (if (0 : ℤ) < 0 then 0 else (0 : ℤ)) ++ " " ++
      toString (outerCount none) ++ " " = "PULSE 0 2147483648 " := by
    decide
  rw [← hpre]

/-- C3 (amended): the over-capacity guard lives in the caller
`Rabi.rabiSeq`, not in the token encoder: with valid duty cycle and a
positive loop count, a request whose `6 * loops` tokens reach `1 << 16`
raises a generic exception before any encoding, and every sequence
`rabiSeq` does deliver has `6 * loops` rows, below the ceiling. -/
theorem C3_capacity_guard_in_caller (tau : ℤ) (ih dc : ℚ) (loops : ℤ) :
    (0 < dc → dc < 1 → 0 < loops → (1 <<< 16 : ℤ) ≤ loops * 6 →
      rabiSeq tau ih dc loops =
        Except.error
          "The generated sequence will not fit in the memory of the pico-pulse device.") ∧
    (∀ s, rabiSeq tau ih dc loops = Except.ok s →
      loops * 6 < (1 <<< 16 : ℤ) ∧ s.length = 6 * loops.toNat) := by
  have he : ((1 <<< 16 : ℕ) : ℤ) = 65536 := by decide
  constructor
  · intro hdc0 hdc1 hl hcap
    simp only [rabiSeq]
    split_ifs with h1 h2 h3
    · exact absurd h1 (by push_neg; exact ⟨hdc0, hdc1⟩)
    · omega
    · rfl
    all_goals
      rw [he] at hcap
      rw [ge_iff_le, he] at h3
      omega
  · intro s hs
    simp only [rabiSeq] at hs
    split_ifs at hs with h1 h2 h3 h4
    · injection hs with hs
      subst hs
      rw [ge_iff_le, he] at h3
      refine ⟨by omega, ?_⟩
      simp only [List.length_append, List.length_flatten, List.map_replicate,
        List.sum_replicate, List.length_cons, List.length_nil, smul_eq_mul]
      omega

/-- C3 witness: 11000 loops would need 66000 > 2^16 tokens and the caller
raises; 100 loops pass the guard and produce 600 rows. -/
theorem C3_witness :
    rabiSeq 100 100000 (9/10) 11000 =
      Except.error
        "The generated sequence will not fit in the memory of the pico-pulse device." :=
  (C3_capacity_guard_in_caller 100 100000 (9/10) 11000).1
    (by norm_num) (by norm_num) (by norm_num) (by decide)

/-! ### Claims C1, C5, C7, C4: the waveform encoder -/

theorem max_pow_two (a b : ℕ) : max (2 ^ a) (2 ^ b) = 2 ^ max a b := by
  rcases le_total a b with h | h
  · rw [max_eq_right (Nat.pow_le_pow_right (by norm_num) h), max_eq_right h]
  · rw [max_eq_left (Nat.pow_le_pow_right (by norm_num) h), max_eq_left h]

/-- The length of a `set_waveform` output as a function of the input
length: padded to `max (2 ^ ceil-log) 0x8000 - 2` exactly when `len + 2`
is not a power of two, untouched otherwise. -/
theorem set_waveform_length (w : List ℚ) :
    (set_waveform w).length =
      if (w.length + 2) &&& (w.length + 1) ≠ 0 then
        max (2 ^ Nat.clog 2 (w.length + 2)) 0x8000 - 2
      else w.length := by
  simp only [set_waveform, List.length_map]
  rw [apply_ite List.length]
  simp only [List.length_append, List.length_replicate]
  have hlen :
      (if maxAbs w ≠ 0 then w.map (fun x => x / maxAbs w) else w).length =
        w.length := by
    split <;> simp
  rw [hlen]
  have h21 : w.length + 2 - 1 = w.length + 1 := by omega
  rw [h21]
  split
  · have hle : w.length + 2 ≤ max (2 ^ Nat.clog 2 (w.length + 2)) 0x8000 :=
      le_trans (Nat.le_pow_clog (by norm_num) _) (le_max_left _ _)
    omega
  · rfl

/-- C1 counterexample: the input `[0, 0]` has `len + 2 = 4`, already a
power of two, so no padding happens and the output stays below the
`0x8000` floor, contradicting the claim that the floor always holds. -/
theorem C1_counterexample :
    (set_waveform [0, 0]).length + 2 = 4 ∧
    ¬ (0x8000 ≤ (set_waveform [0, 0]).length + 2) := by
  have h : (set_waveform [0, 0]).length = 2 := by
    rw [set_waveform_length]
    rw [if_neg (by decide)]
    rfl
  omega

/-- C1 (amended): `len(output) + 2` is always an exact power of two, and it
is at least the `0x8000` floor whenever padding is performed (`len + 2` not
already a power of two); an input whose `len + 2` is a power of two is
returned with its length unchanged, even below the floor. -/
theorem C1_length_power_of_two (w : List ℚ) :
    (∃ k, (set_waveform w).length + 2 = 2 ^ k) ∧
    ((w.length + 2) &&& (w.length + 1) ≠ 0 →
      0x8000 ≤ (set_waveform w).length + 2) ∧
    ((w.length + 2) &&& (w.length + 1) = 0 →
      (set_waveform w).length = w.length) := by
  by_cases hc : (w.length + 2) &&& (w.length + 1) = 0
  · have hlen : (set_waveform w).length = w.length := by
      rw [set_waveform_length, if_neg (not_not_intro hc)]
    exact ⟨⟨Nat.log 2 (w.length + 2),
        by rw [hlen]; exact eq_pow_of_land_pred_eq_zero (by omega) hc⟩,
      fun h => absurd hc h, fun _ => hlen⟩
  · have hlen : (set_waveform w).length =
        max (2 ^ Nat.clog 2 (w.length + 2)) 0x8000 - 2 := by
      rw [set_waveform_length, if_pos hc]
    have hfloor : (0x8000 : ℕ) ≤ max (2 ^ Nat.clog 2 (w.length + 2)) 0x8000 :=
      le_max_right _ _
    have hplus : (set_waveform w).length + 2 =
        max (2 ^ Nat.clog 2 (w.length + 2)) 0x8000 := by omega
    refine ⟨?_, fun _ => by omega, fun h => absurd h hc⟩
    refine ⟨max (Nat.clog 2 (w.length + 2)) 15, ?_⟩
    rw [hplus, show (0x8000 : ℕ) = 2 ^ 15 by norm_num, max_pow_two]

/-- C1 witness: a 3-sample input (`len + 2 = 5`, not a power of two) is
padded up to the floor. -/
theorem C1_witness :
    0x8000 ≤ (set_waveform (List.replicate 3 1)).length + 2 :=
  (C1_length_power_of_two (List.replicate 3 1)).2.1 (by decide)

theorem eq_zero_of_maxAbs_eq_zero {w : List ℚ} (h : maxAbs w = 0) {y : ℚ}
    (hy : y ∈ w) : y = 0 := by
  have hle := abs_le_maxAbs hy
  rw [h] at hle
  exact abs_eq_zero.1 (le_antisymm hle (abs_nonneg y))

/-- After the normalization step of `set_waveform`, every sample has
absolute value at most 1. -/
theorem normalized_abs_le_one {w : List ℚ} {y : ℚ}
    (hy : y ∈ (if maxAbs w ≠ 0 then w.map (fun x => x / maxAbs w) else w)) :
    |y| ≤ 1 := by
  by_cases h : maxAbs w ≠ 0
  · rw [if_pos h] at hy
    obtain ⟨z, hz, rfl⟩ := List.mem_map.1 hy
    have hpos : 0 < maxAbs w := lt_of_le_of_ne (maxAbs_nonneg w) (Ne.symm h)
    rw [abs_div, abs_of_pos hpos]
    exact (div_le_one hpos).2 (abs_le_maxAbs hz)
  · rw [if_neg h] at hy
    rw [eq_zero_of_maxAbs_eq_zero (not_not.1 h) hy]
    norm_num

/-- C5 (amended): every sample emitted by `set_waveform` lies in
`[-32768, 32767]` — because normalization bounds the scaled value, not
because of any clamping; no clamping code exists. -/
theorem C5_output_in_int16_range (w : List ℚ) (x : ℤ)
    (hx : x ∈ set_waveform w) : -32768 ≤ x ∧ x ≤ 32767 := by
  simp only [set_waveform] at hx
  obtain ⟨y, hy, rfl⟩ := List.mem_map.1 hx
  have hnorm : ∀ z ∈ (if maxAbs w ≠ 0 then w.map (fun x => x / maxAbs w) else w),
      |z| ≤ 1 := fun _ hz => normalized_abs_le_one hz
  set w1 := (if maxAbs w ≠ 0 then w.map (fun x => x / maxAbs w) else w) with hw1
  have hy1 : |y| ≤ 1 := by
    split at hy
    · rcases List.mem_append.1 hy with h | h
      · exact hnorm _ h
      · rw [(List.mem_replicate.1 h).2]
        norm_num
    · exact hnorm _ hy
  have habs : |0x7FFF * y| ≤ ((32767 : ℤ) : ℚ) := by
    rw [abs_mul]
    push_cast
    calc |(0x7FFF : ℚ)| * |y| = 32767 * |y| := by norm_num
      _ ≤ 32767 * 1 := by
          exact mul_le_mul_of_nonneg_left hy1 (by norm_num)
      _ = 32767 := by norm_num
  obtain ⟨hlo, hhi⟩ := truncQ_bound (by norm_num) habs
  exact ⟨by omega, hhi⟩

/-- C5 counterexample: `set_waveform_exact` on the out-of-range sample
`2.0` wraps: the output is `-2`, not the clamp value `32767`. -/
theorem C5_counterexample :
    set_waveform_exact [2] = [-2] ∧ (1 : ℚ) < 2 ∧ (-2 : ℤ) ≠ 32767 := by
  refine ⟨?_, by norm_num, by decide⟩
  have hmul : (0x7FFF : ℚ) * 2 = 65534 := by norm_num
  have hfloor : truncQ (65534 : ℚ) = 65534 := by
    rw [truncQ, if_pos (by norm_num)]
    norm_num
  simp only [set_waveform_exact, List.map, hmul, hfloor]
  decide

/-- C5 witness: the sample produced from the normalized input `[0, 0]`
satisfies the int16 bounds. -/
theorem C5_witness : -32768 ≤ (0 : ℤ) ∧ (0 : ℤ) ≤ 32767 := by
  have hsw : set_waveform [0, 0] = [0, 0] := by
    have hmax : maxAbs [0, 0] = 0 := by simp [maxAbs]
    have h43 : (4 : ℕ) &&& 3 = 0 := by decide
    simp [set_waveform, hmax, truncQ, h43]
  exact C5_output_in_int16_range [0, 0] 0 (by rw [hsw]; simp)

/-- When the peak is zero the normalization branch is not taken and every
output sample of `set_waveform` is zero. -/
theorem set_waveform_all_zero {w : List ℚ} (h : maxAbs w = 0) :
    ∀ x ∈ set_waveform w, x = 0 := by
  intro x hx
  simp only [set_waveform, h, ne_eq, not_true_eq_false, if_false] at hx
  obtain ⟨y, hy, rfl⟩ := List.mem_map.1 hx
  have hy0 : y = 0 := by
    split at hy
    · rcases List.mem_append.1 hy with hm | hm
      · exact eq_zero_of_maxAbs_eq_zero h hm
      · exact (List.mem_replicate.1 hm).2
    · exact eq_zero_of_maxAbs_eq_zero h hy
  rw [hy0]
  simp [truncQ]

/-- C7: an input whose peak absolute value is zero skips normalization (the
division guard) and every output sample is 0; the all-zero 10-sample input
yields exactly `0x8000 - 2 = 32766` int16 zeros, not a zero-length buffer. -/
theorem C7_zero_peak_skips_normalization :
    (∀ w : List ℚ, maxAbs w = 0 → ∀ x ∈ set_waveform w, x = 0) ∧
    set_waveform (List.replicate 10 0) = List.replicate 32766 0 := by
  refine ⟨fun w h => set_waveform_all_zero h, ?_⟩
  have hlen : (set_waveform (List.replicate 10 (0 : ℚ))).length = 32766 := by
    rw [set_waveform_length]
    simp only [List.length_replicate]
    rw [if_pos (by decide), clog2_twelve]
    norm_num
  have hval := set_waveform_all_zero (maxAbs_replicate_zero 10)
  have hrep := List.eq_replicate_of_mem hval
  rw [hlen] at hrep
  exact hrep

/-- C7 witness: the one-sample all-zero input has peak zero and all of its
output samples are zero. -/
theorem C7_witness :
    maxAbs [(0 : ℚ)] = 0 ∧ ∀ x ∈ set_waveform [(0 : ℚ)], x = 0 :=
  ⟨by simp [maxAbs], fun x hx =>
    C7_zero_peak_skips_normalization.1 [(0 : ℚ)] (by simp [maxAbs]) x hx⟩

/-- C4 (amended): a step whose duration rounds to zero is silently
skipped by `seq_to_waveforms` — it writes no samples, leaves the buffers
and the running index untouched, and no error of any kind is raised. -/
theorem C4_zero_count_step_skipped (r : WRow) (rs : List WRow)
    (st : List ℚ × List ℚ × List ℚ × List ℚ) (i : ℕ)
    (h : pyRound r.length = 0) :
    fillRows (r :: rs) st i = fillRows rs st i := by
  obtain ⟨lp, ln, ic, qc⟩ := st
  simp only [fillRows, h]
  norm_num [writeRun]

/-- C4 counterexample: the single step of strictly positive duration `1/5`
rounds to zero samples; `seq_to_waveforms` returns the untouched all-zero
buffers normally instead of raising `InvalidDurationError`. -/
theorem C4_counterexample :
    (0 : ℚ) < 1/5 ∧
    seq_to_waveforms [⟨1/5, 1, 1, 1⟩] =
      (List.replicate pBuf 0, List.replicate pBuf 0,
       List.replicate pBuf 0, List.replicate pBuf 0) := by
  have h5 : pyRound (1/5 : ℚ) = 0 := by
    have hf : ⌊(1/5 : ℚ)⌋ = 0 := by norm_num
    simp only [pyRound, hf]
    norm_num
  refine ⟨by norm_num, ?_⟩
  simp only [seq_to_waveforms, fillRows, h5]
  norm_num [writeRun]

/-- C4 witness: the skip equation applied at a concrete positive duration
that rounds to zero, with nonempty buffers and a nonzero index. -/
theorem C4_witness :
    fillRows [⟨1/5, 2, 3, 4⟩] ([1], [1], [1], [1]) 7 =
      fillRows [] ([1], [1], [1], [1]) 7 :=
  C4_zero_count_step_skipped ⟨1/5, 2, 3, 4⟩ [] ([1], [1], [1], [1]) 7
    (by norm_num [pyRound])

/-! ### Claim C8: T1seq half-period arithmetic -/

/-- C8: whenever `T1seq` delivers a sequence, the four durations of each
half cycle (`init`, `tau`, `readout`, `tpad`) sum exactly to the nominal
half period `round(1e9 / (2 freq))`: the explicit padding row absorbs the
whole rounding remainder by construction. -/
theorem C8_half_period_exact (tau init readout : ℤ) (freq : ℚ)
    (s : List XRow) (h : T1seq tau init readout freq = Except.ok s) :
    ((s.take 4).map XRow.time).sum = pyRound (1e9 / (freq * 2)) ∧
    ((s.drop 4).map XRow.time).sum = pyRound (1e9 / (freq * 2)) := by
  simp only [T1seq] at h
  split_ifs at h with hp
  injection h with h
  subst h
  simp only [List.take, List.drop, List.map_cons, List.map_nil, List.sum_cons,
    List.sum_nil]
  constructor <;> omega

/-- C8 witness: at `tau = 100`, `init = 50000`, `readout = 10000`,
`freq = 64` the half period is 7812500 and both half-cycle sums hit it. -/
theorem C8_witness :
    ((([⟨50000, 1, 1, 0, 0⟩, ⟨100, 1, 0, 0, 0⟩, ⟨10000, 1, 1, 0, 0⟩,
        ⟨7752400, 1, 0, 0, 0⟩, ⟨50000, 0, 1, 0, 0⟩, ⟨100, 0, 0, 0, 0⟩,
        ⟨10000, 0, 0, 0, 0⟩, ⟨7752400, 0, 0, 0, 0⟩] : List XRow).take 4).map
          XRow.time).sum = pyRound (1e9 / (64 * 2)) ∧
    ((([⟨50000, 1, 1, 0, 0⟩, ⟨100, 1, 0, 0, 0⟩, ⟨10000, 1, 1, 0, 0⟩,
        ⟨7752400, 1, 0, 0, 0⟩, ⟨50000, 0, 1, 0, 0⟩, ⟨100, 0, 0, 0, 0⟩,
        ⟨10000, 0, 0, 0, 0⟩, ⟨7752400, 0, 0, 0, 0⟩] : List XRow).drop 4).map
          XRow.time).sum = pyRound (1e9 / (64 * 2)) := by
  have hval : (1e9 : ℚ) / (64 * 2) = ((7812500 : ℤ) : ℚ) := by norm_num
  have hround : pyRound (1e9 / (64 * 2) : ℚ) = 7812500 := by
    rw [hval, pyRound_intCast]
  refine C8_half_period_exact 100 50000 10000 64 _ ?_
  simp only [T1seq, hround]
  rw [if_neg (by decide)]
  norm_num

/-! ### Claim C9: the timing resolver -/

/-- C9: the chosen rate satisfies `sample_rate * 2 = p / t` exactly, with
`t = max(total, tmin)` as in the code, and the reported resolution is
monotonically non-decreasing as the target frequency decreases. -/
theorem C9_timing_resolver :
    (∀ total f : ℚ, resolverRate total f * 2 = (pBuf : ℚ) / resolverT total f) ∧
    (∀ total f1 f2 : ℚ, 0 < f2 → f2 ≤ f1 →
      resolverRes total f1 ≤ resolverRes total f2) := by
  constructor
  · intro total f
    rw [resolverRate, div_mul_eq_mul_div, div_mul_cancel₀]
    exact two_ne_zero
  · intro total f1 f2 h2 hle
    unfold resolverRes resolverT resolverTmin
    gcongr

/-- C9 witness: halving the target frequency from 100 Hz to 50 Hz cannot
refine the reported resolution. -/
theorem C9_witness : resolverRes 0 100 ≤ resolverRes 0 50 :=
  C9_timing_resolver.2 0 100 50 (by norm_num) (by norm_num)
